import Mathlib

/-!
# Verification of the langroid `PostgresDB` vector store

Shallow embedding of `src/langroid/vector_store/postgres.py` (class `PostgresDB`)
and the data model of `src/langroid/mytypes.py` (`Document`, `DocMetaData`).

The SQL backend is modelled as explicit state: a list of named tables (each a list
of rows with a unique primary key `id`), a set of index names, and the currently
active collection name.  The embedding function and the engine's cosine distance
are external collaborators and enter as function parameters.  Machine floats are
idealised as rationals.  Python stdlib behaviour that the code relies on
(`uuid.UUID`, `hashlib.sha256`, `uuid.uuid5`/SHA-1, `json.loads`, JSONB
containment) is implemented here following its documented semantics.
-/

namespace LangroidPg

/-! ## Hexadecimal strings and canonical UUID formatting -/

/-- Lowercase hex digit character for a value below 16 (Python `'%x'` formatting). -/
def hexDigit (d : Nat) : Char :=
  if d < 10 then Char.ofNat (48 + d) else Char.ofNat (87 + d)

/-- Numeric value of a hex digit character, accepting both cases (Python `int(s, 16)`). -/
def hexVal (c : Char) : Nat :=
  if 48 ≤ c.toNat ∧ c.toNat ≤ 57 then c.toNat - 48
  else if 97 ≤ c.toNat ∧ c.toNat ≤ 102 then c.toNat - 87
  else if 65 ≤ c.toNat ∧ c.toNat ≤ 70 then c.toNat - 55
  else 0

/-- Is `c` one of `0-9`, `a-f`, `A-F`? -/
def isHexDigitChar (c : Char) : Bool :=
  (48 ≤ c.toNat && c.toNat ≤ 57) || (97 ≤ c.toNat && c.toNat ≤ 102)
    || (65 ≤ c.toNat && c.toNat ≤ 70)

/-- Big-endian, zero-padded hex digits of `n`, width `w`
(Python `'%032x' % n` for `w = 32`, `n < 16 ^ w`). -/
def natToHex : Nat → Nat → List Char
  | 0, _ => []
  | w + 1, n => natToHex w (n / 16) ++ [hexDigit (n % 16)]

/-- Value of a big-endian hex digit list (Python `int(s, 16)`). -/
def hexToNat (l : List Char) : Nat :=
  l.foldl (fun acc c => acc * 16 + hexVal c) 0

/-- Insert the canonical `8-4-4-4-12` hyphens into a 32-character hex digit list. -/
def uuidHyphens (l : List Char) : List Char :=
  l.take 8 ++ '-' :: ((l.drop 8).take 4 ++ '-' :: ((l.drop 12).take 4 ++ '-' ::
    ((l.drop 16).take 4 ++ '-' :: l.drop 20)))

/-- Canonical string of a 128-bit UUID value: `str(uuid.UUID(int=n))`,
lowercase hex with hyphens. -/
def formatUUID (n : Nat) : String :=
  String.mk (uuidHyphens (natToHex 32 n))

/-- Remove every occurrence of `pat` from `l`, scanning left to right and
continuing after each removed match (Python `str.replace(pat, '')`).
`fuel` bounds the recursion; callers pass the input length. -/
def removeSubAux (pat : List Char) : Nat → List Char → List Char
  | _, [] => []
  | 0, l => l
  | fuel + 1, c :: rest =>
    if pat ≠ [] ∧ pat.isPrefixOf (c :: rest) then
      removeSubAux pat fuel ((c :: rest).drop pat.length)
    else
      c :: removeSubAux pat fuel rest

/-- Python `s.replace(pat, '')`. -/
def removeSub (pat l : List Char) : List Char :=
  removeSubAux pat l.length l

/-- Is `c` an opening or closing curly brace? -/
def isBraceChar (c : Char) : Bool :=
  c.toNat = 123 || c.toNat = 125

/-- Python `s.strip('\x7b\x7d')`: drop leading and trailing curly braces. -/
def stripBraces (l : List Char) : List Char :=
  ((l.dropWhile isBraceChar).reverse.dropWhile isBraceChar).reverse

/-- Modelled from the Python standard library: `str(uuid.UUID(hex=s))`.
The `uuid.UUID` constructor removes every `"urn:"` and `"uuid:"` substring,
strips surrounding curly braces, removes hyphens, and requires exactly 32 hex
digits; `str` then renders the canonical lowercase hyphenated form.  (The model
requires plain hex digits, leaving out CPython accidents such as underscores or
whitespace accepted by `int(s, 16)`.)  Returns `none` where CPython raises
`ValueError`. -/
def pyUUIDCanon (s : String) : Option String :=
  let t1 := removeSub "urn:".data s.data
  let t2 := removeSub "uuid:".data t1
  let t3 := stripBraces t2
  let t4 := t3.filter (fun c => c != '-')
  if t4.length = 32 ∧ t4.all isHexDigitChar then
    some (formatUUID (hexToNat t4))
  else
    none

/-! ## SHA-256, SHA-1 and name-based UUIDs

Modelled from the Python standard library (`hashlib.sha256`, `uuid.uuid5`),
implemented over byte lists per FIPS 180-4.  32-bit words are naturals reduced
modulo `2 ^ 32`. -/

/-- Truncate to a 32-bit word. -/
def w32 (n : Nat) : Nat := n % 4294967296

/-- Rotate a 32-bit word right by `n` bits. -/
def rotr32 (x n : Nat) : Nat := w32 (x / 2 ^ n + x * 2 ^ (32 - n))

/-- Rotate a 32-bit word left by `n` bits. -/
def rotl32 (x n : Nat) : Nat := w32 (x * 2 ^ n + x / 2 ^ (32 - n))

/-- Bitwise complement of a 32-bit word. -/
def not32 (x : Nat) : Nat := x ^^^ 4294967295

/-- Big-endian bytes of `n`, width `w`. -/
def natToBytes : Nat → Nat → List Nat
  | 0, _ => []
  | w + 1, n => natToBytes w (n / 256) ++ [n % 256]

/-- Value of a big-endian byte list (Python `int.from_bytes(l, 'big')`). -/
def bytesToNat (l : List Nat) : Nat :=
  l.foldl (fun acc b => acc * 256 + b) 0

/-- SHA padding: a `128` byte, zeros to 56 mod 64, then the bit length in 8 bytes. -/
def shaPad (msg : List Nat) : List Nat :=
  let len := msg.length
  let z := (119 - len % 64) % 64
  msg ++ 128 :: (List.replicate z 0 ++ natToBytes 8 (len * 8))

/-- Group bytes into big-endian 32-bit words. -/
def bytesToWords : List Nat → List Nat
  | b0 :: b1 :: b2 :: b3 :: rest =>
    (((b0 * 256 + b1) * 256 + b2) * 256 + b3) :: bytesToWords rest
  | _ => []

/-- Split into 64-byte blocks (`fuel` bounds the recursion). -/
def chunksAux : Nat → List Nat → List (List Nat)
  | 0, _ => []
  | _, [] => []
  | fuel + 1, l => l.take 64 :: chunksAux fuel (l.drop 64)

/-- Split a byte list into 64-byte blocks. -/
def chunks64 (l : List Nat) : List (List Nat) := chunksAux l.length l

/-- The 64 SHA-256 round constants. -/
def sha256K : List Nat :=
  [1116352408, 1899447441, 3049323471, 3921009573, 961987163, 1508970993,
   2453635748, 2870763221, 3624381080, 310598401, 607225278, 1426881987,
   1925078388, 2162078206, 2614888103, 3248222580, 3835390401, 4022224774,
   264347078, 604807628, 770255983, 1249150122, 1555081692, 1996064986,
   2554220882, 2821834349, 2952996808, 3210313671, 3336571891, 3584528711,
   113926993, 338241895, 666307205, 773529912, 1294757372, 1396182291,
   1695183700, 1986661051, 2177026350, 2456956037, 2730485921, 2820302411,
   3259730800, 3345764771, 3516065817, 3600352804, 4094571909, 275423344,
   430227734, 506948616, 659060556, 883997877, 958139571, 1322822218,
   1537002063, 1747873779, 1955562222, 2024104815, 2227730452, 2361852424,
   2428436474, 2756734187, 3204031479, 3329325298]

/-- The SHA-256 initial hash value. -/
def sha256Init : List Nat :=
  [1779033703, 3144134277, 1013904242, 2773480762,
   1359893119, 2600822924, 528734635, 1541459225]

/-- Extend the 16-word message schedule by `n` further SHA-256 words. -/
def sha256ExtendAux : List Nat → Nat → List Nat
  | ws, 0 => ws
  | ws, n + 1 =>
    let i := ws.length
    let x15 := ws.getD (i - 15) 0
    let x2 := ws.getD (i - 2) 0
    let s0 := rotr32 x15 7 ^^^ rotr32 x15 18 ^^^ x15 / 8
    let s1 := rotr32 x2 17 ^^^ rotr32 x2 19 ^^^ x2 / 1024
    sha256ExtendAux (ws ++ [w32 (ws.getD (i - 16) 0 + s0 + ws.getD (i - 7) 0 + s1)]) n

/-- One SHA-256 round on the state `[a,b,c,d,e,f,g,h]`; `kw` is `k[i] + w[i]`. -/
def sha256Round (st : List Nat) (kw : Nat) : List Nat :=
  match st with
  | [a, b, c, d, e, f, g, h] =>
    let S1 := rotr32 e 6 ^^^ rotr32 e 11 ^^^ rotr32 e 25
    let ch := (e &&& f) ^^^ (not32 e &&& g)
    let t1 := w32 (h + S1 + ch + kw)
    let S0 := rotr32 a 2 ^^^ rotr32 a 13 ^^^ rotr32 a 22
    let maj := (a &&& b) ^^^ (a &&& c) ^^^ (b &&& c)
    let t2 := w32 (S0 + maj)
    [w32 (t1 + t2), a, b, c, w32 (d + t1), e, f, g]
  | st => st

/-- Compress one 64-byte block into the SHA-256 state. -/
def sha256Block (h : List Nat) (block : List Nat) : List Nat :=
  let ws := sha256ExtendAux (bytesToWords block) 48
  let st := (sha256K.zip ws).foldl (fun st p => sha256Round st (w32 (p.1 + p.2))) h
  List.zipWith (fun a b => w32 (a + b)) h st

/-- SHA-256 digest (32 bytes) of a byte list. -/
def sha256Bytes (msg : List Nat) : List Nat :=
  let hs := (chunks64 (shaPad msg)).foldl sha256Block sha256Init
  hs.foldr (fun w acc => natToBytes 4 w ++ acc) []

/-- Lowercase hex rendering of a byte list (Python `.hexdigest()`). -/
def bytesToHex (l : List Nat) : String :=
  String.mk (l.foldr (fun b acc => natToHex 2 b ++ acc) [])

/-- The SHA-1 initial hash value. -/
def sha1Init : List Nat :=
  [1732584193, 4023233417, 2562383102, 271733878, 3285377520]

/-- Extend the 16-word message schedule by `n` further SHA-1 words. -/
def sha1ExtendAux : List Nat → Nat → List Nat
  | ws, 0 => ws
  | ws, n + 1 =>
    let i := ws.length
    sha1ExtendAux
      (ws ++ [rotl32 (ws.getD (i - 3) 0 ^^^ ws.getD (i - 8) 0 ^^^
        ws.getD (i - 14) 0 ^^^ ws.getD (i - 16) 0) 1]) n

/-- SHA-1 round function for round `t`. -/
def sha1F (t b c d : Nat) : Nat :=
  if t < 20 then (b &&& c) ||| (not32 b &&& d)
  else if t < 40 then b ^^^ c ^^^ d
  else if t < 60 then (b &&& c) ||| (b &&& d) ||| (c &&& d)
  else b ^^^ c ^^^ d

/-- SHA-1 round constant for round `t`. -/
def sha1KC (t : Nat) : Nat :=
  if t < 20 then 1518500249
  else if t < 40 then 1859775393
  else if t < 60 then 2400959708
  else 3395469782

/-- One SHA-1 round on the state `[a,b,c,d,e]`; `tw` is `(t, w[t])`. -/
def sha1Round (st : List Nat) (tw : Nat × Nat) : List Nat :=
  match st with
  | [a, b, c, d, e] =>
    let tmp := w32 (rotl32 a 5 + sha1F tw.1 b c d + e + sha1KC tw.1 + tw.2)
    [tmp, a, rotl32 b 30, c, d]
  | st => st

/-- Compress one 64-byte block into the SHA-1 state. -/
def sha1Block (h : List Nat) (block : List Nat) : List Nat :=
  let ws := sha1ExtendAux (bytesToWords block) 64
  let st := ws.enum.foldl (fun st p => sha1Round st p) h
  List.zipWith (fun a b => w32 (a + b)) h st

/-- SHA-1 digest (20 bytes) of a byte list. -/
def sha1Bytes (msg : List Nat) : List Nat :=
  let hs := (chunks64 (shaPad msg)).foldl sha1Block sha1Init
  hs.foldr (fun w acc => natToBytes 4 w ++ acc) []

/-- UTF-8 bytes of a string (Python `s.encode()`). -/
def strBytes (s : String) : List Nat :=
  s.toUTF8.toList.map (fun b => b.toNat)

/-- The bytes of `uuid.NAMESPACE_DNS` (`6ba7b810-9dad-11d1-80b4-00c04fd430c8`). -/
def namespaceDNSBytes : List Nat :=
  [107, 167, 184, 16, 157, 173, 17, 209,
   128, 180, 0, 192, 79, 212, 48, 200]

/-- Modelled from the Python standard library: the 128-bit integer of
`uuid.uuid5(namespace, name)` — the SHA-1 digest of the namespace bytes followed
by the UTF-8 name, truncated to 16 bytes, with the RFC 4122 variant bits and
version number 5 set. -/
def uuid5Int (nsBytes nameBytes : List Nat) : Nat :=
  let digest := (sha1Bytes (nsBytes ++ nameBytes)).take 16
  let n0 := bytesToNat digest
  let mask128 := 2 ^ 128 - 1
  let n1 := (n0 &&& (mask128 ^^^ (49152 <<< 48))) ||| (32768 <<< 48)
  (n1 &&& (mask128 ^^^ (61440 <<< 64))) ||| (5 <<< 76)

/-! ## JSON values, `json.loads`, and JSONB containment -/

/-- A JSON value (numbers idealised as rationals). -/
inductive Json where
  | null : Json
  | bool (b : Bool) : Json
  | num (q : ℚ) : Json
  | str (s : String) : Json
  | arr (elems : List Json) : Json
  | obj (fields : List (String × Json)) : Json

mutual

/-- Structural size of a JSON value (fuel for recursive traversals). -/
def jsize : Json → Nat
  | .null => 1
  | .bool _ => 1
  | .num _ => 1
  | .str _ => 1
  | .arr xs => jsizeList xs + 1
  | .obj fs => jsizeFields fs + 1

/-- Structural size of a JSON array body. -/
def jsizeList : List Json → Nat
  | [] => 0
  | j :: t => jsize j + jsizeList t

/-- Structural size of a JSON object body. -/
def jsizeFields : List (String × Json) → Nat
  | [] => 0
  | kv :: t => jsize kv.2 + jsizeFields t

end

/-- JSON whitespace (space, tab, line feed, carriage return). -/
def isJsonWs (c : Char) : Bool :=
  c.toNat == 32 || c.toNat == 9 || c.toNat == 10 || c.toNat == 13

/-- Skip JSON whitespace. -/
def skipWs (l : List Char) : List Char := l.dropWhile isJsonWs

/-- The JSON two-character escapes: escape letter paired with the character it
denotes (quote, backslash, slash, backspace, form feed, line feed, carriage
return, tab). -/
def jsonEscapes : List (Char × Char) :=
  [('"', '"'), ('\\', '\\'), ('/', '/'), ('b', Char.ofNat 8), ('f', Char.ofNat 12),
   ('n', Char.ofNat 10), ('r', Char.ofNat 13), ('t', Char.ofNat 9)]

/-- Parse the remainder of a JSON string literal (opening quote already
consumed), handling the standard escapes. -/
def parseJStringAux : Nat → List Char → List Char → Option (String × List Char)
  | 0, _, _ => none
  | _, acc, '"' :: rest => some (String.mk acc.reverse, rest)
  | fuel + 1, acc, '\\' :: c :: rest =>
    match jsonEscapes.lookup c with
    | some e => parseJStringAux fuel (e :: acc) rest
    | none =>
      if c == 'u' then
        match rest with
        | h1 :: h2 :: h3 :: h4 :: rest2 =>
          if [h1, h2, h3, h4].all isHexDigitChar then
            parseJStringAux fuel (Char.ofNat (hexToNat [h1, h2, h3, h4]) :: acc) rest2
          else none
        | _ => none
      else none
  | fuel + 1, acc, c :: rest =>
    if c.toNat < 32 then none else parseJStringAux fuel (c :: acc) rest
  | _, _, [] => none

/-- A decimal digit? -/
def isDigitChar (c : Char) : Bool := 48 ≤ c.toNat && c.toNat ≤ 57

/-- Value of a decimal digit list. -/
def digitsVal (l : List Char) : Nat :=
  l.foldl (fun a c => a * 10 + (c.toNat - 48)) 0

/-- Parse an optional exponent sign and digits. -/
def parseExpSign (l : List Char) : Option (Int × List Char) :=
  let sgn : Int × List Char :=
    match l with
    | '+' :: t => (1, t)
    | '-' :: t => (-1, t)
    | _ => (1, l)
  let ds := sgn.2.takeWhile isDigitChar
  if ds.isEmpty then none
  else some (sgn.1 * (digitsVal ds : Int), sgn.2.dropWhile isDigitChar)

/-- Parse an optional `e`/`E` exponent part. -/
def parseExp (l : List Char) : Option (Int × List Char) :=
  match l with
  | 'e' :: t => parseExpSign t
  | 'E' :: t => parseExpSign t
  | _ => some (0, l)

/-- Parse an optional fraction part, as (digits value, digit count, rest). -/
def parseFrac (l : List Char) : Option (Nat × Nat × List Char) :=
  match l with
  | '.' :: t =>
    let ds := t.takeWhile isDigitChar
    if ds.isEmpty then none
    else some (digitsVal ds, ds.length, t.dropWhile isDigitChar)
  | _ => some (0, 0, l)

/-- Parse a JSON number into a rational. -/
def parseNumber (l : List Char) : Option (ℚ × List Char) :=
  let sgn : Bool × List Char :=
    match l with
    | '-' :: t => (true, t)
    | _ => (false, l)
  let ds := sgn.2.takeWhile isDigitChar
  if ds.isEmpty then none
  else
    match parseFrac (sgn.2.dropWhile isDigitChar) with
    | none => none
    | some (fv, fn, l3) =>
      match parseExp l3 with
      | none => none
      | some (e, l4) =>
        let mant : ℚ := ((digitsVal ds * 10 ^ fn + fv : Nat) : ℚ) / ((10 ^ fn : Nat) : ℚ)
        some ((if sgn.1 then -mant else mant) * (10 : ℚ) ^ e, l4)

mutual

/-- Parse one JSON value.  `fuel` bounds the recursion; `jsonParse` supplies
enough for any input. -/
def parseValue : Nat → List Char → Option (Json × List Char)
  | 0, _ => none
  | fuel + 1, l =>
    match skipWs l with
    | [] => none
    | c :: rest =>
      if c == '"' then
        match parseJStringAux (rest.length + 1) [] rest with
        | some (s, rest2) => some (.str s, rest2)
        | none => none
      else if c == '[' then
        match skipWs rest with
        | ']' :: rest2 => some (.arr [], rest2)
        | _ => parseElems fuel [] rest
      else if c.toNat == 123 then
        match skipWs rest with
        | c2 :: _ =>
          if c2.toNat == 125 then some (.obj [], (skipWs rest).drop 1)
          else parseMembers fuel [] rest
        | [] => none
      else if "null".data.isPrefixOf (c :: rest) then some (.null, (c :: rest).drop 4)
      else if "true".data.isPrefixOf (c :: rest) then some (.bool true, (c :: rest).drop 4)
      else if "false".data.isPrefixOf (c :: rest) then some (.bool false, (c :: rest).drop 5)
      else
        match parseNumber (c :: rest) with
        | some (q, rest2) => some (.num q, rest2)
        | none => none

/-- Parse the elements of a JSON array after `[` (and the accumulated prefix). -/
def parseElems : Nat → List Json → List Char → Option (Json × List Char)
  | 0, _, _ => none
  | fuel + 1, acc, l =>
    match parseValue fuel l with
    | none => none
    | some (v, rest) =>
      match skipWs rest with
      | ',' :: rest2 => parseElems fuel (v :: acc) rest2
      | ']' :: rest2 => some (.arr (v :: acc).reverse, rest2)
      | _ => none

/-- Parse the members of a JSON object after the opening brace. -/
def parseMembers : Nat → List (String × Json) → List Char → Option (Json × List Char)
  | 0, _, _ => none
  | fuel + 1, acc, l =>
    match skipWs l with
    | [] => none
    | c :: rest =>
      if c == '"' then
        match parseJStringAux (rest.length + 1) [] rest with
        | none => none
        | some (k, rest2) =>
          match skipWs rest2 with
          | ':' :: rest3 =>
            match parseValue fuel rest3 with
            | none => none
            | some (v, rest4) =>
              match skipWs rest4 with
              | ',' :: rest5 => parseMembers fuel ((k, v) :: acc) rest5
              | c2 :: rest5 =>
                if c2.toNat == 125 then some (.obj ((k, v) :: acc).reverse, rest5)
                else none
              | [] => none
          | _ => none
      else none

end

/-- Modelled from the Python standard library `json.loads`: parse a complete
JSON document, rejecting trailing garbage.  (The non-standard `NaN`/`Infinity`
float literals accepted by CPython are left out; duplicate object keys are kept
in order rather than last-wins.)  Returns `none` where CPython raises
`json.JSONDecodeError`. -/
def jsonParse (s : String) : Option Json :=
  match parseValue (2 * s.data.length + 4) s.data with
  | some (v, rest) => if (skipWs rest).isEmpty then some v else none
  | none => none

/-- Equality of scalar JSON values. -/
def jsonScalarEq : Json → Json → Bool
  | .null, .null => true
  | .bool a, .bool b => a == b
  | .num a, .num b => a == b
  | .str a, .str b => a == b
  | _, _ => false

/-- Modelled from PostgreSQL JSONB containment (`@>`), which backs
`cmetadata.contains(json_query)`: an object contains an object when every query
key is present with a contained value; an array contains an array when every
query element is contained in some target element; scalars must be equal.
(The top-level array-contains-scalar special case is left out; stored metadata
is always an object.)  `fuel` bounds recursion into the query value. -/
def jsonContainsFuel : Nat → Json → Json → Bool
  | 0, _, _ => false
  | fuel + 1, t, q =>
    match t, q with
    | .obj tf, .obj qf =>
      qf.all (fun kv =>
        match tf.lookup kv.1 with
        | some tv => jsonContainsFuel fuel tv kv.2
        | none => false)
    | .arr ta, .arr qa =>
      qa.all (fun qv => ta.any (fun tv => jsonContainsFuel fuel tv qv))
    | t, q => jsonScalarEq t q

/-- JSONB containment `t @> q`. -/
def jsonContains (t q : Json) : Bool :=
  jsonContainsFuel (jsize q + 1) t q

/-! ## `Document` and `DocMetaData` (`langroid/mytypes.py`) -/

/-- Metadata for a document (`langroid.mytypes.DocMetaData`, a pydantic model
with `Extra.allow`); the open extension bag of caller-added fields is `extra`.
The Python `id` default is a fresh `uuid4()`, which is nondeterministic, so the
model takes `id` explicitly. -/
structure DocMetaData where
  source : String := "context"
  source_content : String := "context"
  title : String := "Unknown Title"
  published_date : String := "Unknown Date"
  is_chunk : Bool := false
  id : String
  window_ids : List String := []
  extra : List (String × Json) := []

/-- A text document with metadata (`langroid.mytypes.Document`). -/
structure Document where
  content : String
  metadata : DocMetaData

/-- Python `repr` of a string, simplified to plain single quotes (escaping is
not modelled; the result only feeds the hash). -/
def pyStrRepr (s : String) : String := "'" ++ s ++ "'"

/-- Python `repr` of a bool. -/
def pyBoolRepr (b : Bool) : String := if b then "True" else "False"

/-- Python `repr` of a list of strings. -/
def pyListRepr (xs : List String) : String :=
  "[" ++ String.intercalate ", " (xs.map pyStrRepr) ++ "]"

/-- Python `repr` of a rational number (simplified). -/
def pyRatRepr (q : ℚ) : String :=
  if q.den = 1 then toString q.num else toString q.num ++ "/" ++ toString q.den

/-- Python `repr` of a JSON-shaped value (simplified). -/
def pyJsonReprFuel : Nat → Json → String
  | 0, _ => ""
  | fuel + 1, j =>
    match j with
    | .null => "None"
    | .bool b => pyBoolRepr b
    | .num q => pyRatRepr q
    | .str s => pyStrRepr s
    | .arr xs => "[" ++ String.intercalate ", " (xs.map (pyJsonReprFuel fuel)) ++ "]"
    | .obj fs =>
      "\x7b" ++ String.intercalate ", "
        (fs.map (fun kv => pyStrRepr kv.1 ++ ": " ++ pyJsonReprFuel fuel kv.2)) ++ "\x7d"

/-- Python `repr` of a JSON-shaped value. -/
def pyJsonRepr (j : Json) : String := pyJsonReprFuel (jsize j + 1) j

/-- Python `repr(obj)` of a `DocMetaData`: pydantic v1 renders the declared
fields in order and then the extra fields (value reprs simplified — the string
only feeds SHA-256). -/
def reprDocMetaData (m : DocMetaData) : String :=
  "DocMetaData(source=" ++ pyStrRepr m.source ++
    ", source_content=" ++ pyStrRepr m.source_content ++
    ", title=" ++ pyStrRepr m.title ++
    ", published_date=" ++ pyStrRepr m.published_date ++
    ", is_chunk=" ++ pyBoolRepr m.is_chunk ++
    ", id=" ++ pyStrRepr m.id ++
    ", window_ids=" ++ pyListRepr m.window_ids ++
    String.join (m.extra.map (fun kv => ", " ++ kv.1 ++ "=" ++ pyJsonRepr kv.2)) ++ ")"

/-- Model of `PostgresDB._id_to_uuid`: the identity-assigning static method.  A string
the `uuid.UUID` constructor accepts is kept (in canonical form); any other
string is combined with the SHA-256 hash of the metadata `repr` and mapped to a
deterministic name-based (version 5) UUID in the DNS namespace. -/
def _id_to_uuid (id : String) (obj : DocMetaData) : String :=
  match pyUUIDCanon id with
  | some doc_id => doc_id
  | none =>
    let obj_repr := reprDocMetaData obj
    let obj_hash := bytesToHex (sha256Bytes (strBytes obj_repr))
    let combined := id ++ "-" ++ obj_hash
    formatUUID (uuid5Int namespaceDNSBytes (strBytes combined))

/-- Model of `doc.dict()["metadata"]`: the pydantic dict of a `DocMetaData` as a JSON
object — declared fields in order, then the extension bag. -/
def metadataToJson (m : DocMetaData) : Json :=
  .obj ([("source", .str m.source), ("source_content", .str m.source_content),
    ("title", .str m.title), ("published_date", .str m.published_date),
    ("is_chunk", .bool m.is_chunk), ("id", .str m.id),
    ("window_ids", .arr (m.window_ids.map .str))] ++ m.extra)

/-- The declared field names of `DocMetaData`. -/
def docMetaKeys : List String :=
  ["source", "source_content", "title", "published_date", "is_chunk", "id",
   "window_ids"]

/-- Extract a string field with a default. -/
def jStrField (fs : List (String × Json)) (k d : String) : String :=
  match fs.lookup k with
  | some (.str s) => s
  | _ => d

/-- Model of `DocMetaData(**metadata)` from a stored JSON object: known keys populate the
declared fields (defaults when absent), remaining keys go to the extension bag.
Stored metadata always carries an `id`; when absent the model defaults to `""`
where pydantic would draw a fresh uuid4. -/
def docMetaDataOfJson : Json → DocMetaData
  | .obj fs =>
    { source := jStrField fs "source" "context"
      source_content := jStrField fs "source_content" "context"
      title := jStrField fs "title" "Unknown Title"
      published_date := jStrField fs "published_date" "Unknown Date"
      is_chunk :=
        (match fs.lookup "is_chunk" with
         | some (.bool b) => b
         | _ => false)
      id := jStrField fs "id" ""
      window_ids :=
        (match fs.lookup "window_ids" with
         | some (.arr xs) =>
           xs.filterMap (fun j => match j with | .str s => some s | _ => none)
         | _ => [])
      extra := fs.filter (fun kv => !docMetaKeys.contains kv.1) }
  | _ => { id := "" }

/-- Python dict assignment `d[k] = v`: overwrite in place, or append. -/
def setKey : List (String × Json) → String → Json → List (String × Json)
  | [], k, v => [(k, v)]
  | kv :: t, k, v => if kv.1 == k then (k, v) :: t else kv :: setKey t k v

/-! ## The `PostgresDB` store state and operations -/

/-- A physical row of an embeddings table (the spec's `StoredRecord`). -/
structure Record where
  id : String
  embedding : List ℚ
  document : String
  cmetadata : Json

/-- The modelled store state: the backing database's tables (collection name to
rows, `id` the primary key), the set of index names, and the client's mutable
config (`collection_name`, `replace_collection`). -/
structure DBState where
  tables : List (String × List Record)
  indexes : List String
  active : String
  replaceFlag : Bool

/-- The per-collection HNSW index name. -/
def indexName (name : String) : String :=
  "hnsw_index_" ++ name ++ "_embedding"

/-- Does a table of this name exist (`inspector.get_table_names()`)? -/
def tableExists (s : DBState) (name : String) : Bool :=
  (s.tables.map (fun t => t.1)).contains name

/-- The rows of the active collection (`self.embeddings_table`). -/
def activeRows (s : DBState) : List Record :=
  (s.tables.lookup s.active).getD []

/-- Replace the rows of table `name` (first occurrence). -/
def setTable : List (String × List Record) → String → List Record →
    List (String × List Record)
  | [], _, _ => []
  | t :: ts, name, rows =>
    if t.1 == name then (t.1, rows) :: ts else t :: setTable ts name rows

/-- Model of `PostgresDB.delete_collection`: drop the HNSW index, then the table; both
steps tolerate the object being already absent. -/
def delete_collection (s : DBState) (name : String) : DBState :=
  { s with
    indexes := s.indexes.filter (fun ix => !(ix == indexName name)),
    tables := s.tables.filter (fun t => !(t.1 == name)) }

/-- Model of `PostgresDB._setup_table`: when `replace_collection` is set, drop the
collection first; then create the table if missing
(`metadata.create_all`) and the HNSW index if missing
(`CREATE INDEX CONCURRENTLY IF NOT EXISTS`). -/
def _setup_table (s : DBState) : DBState :=
  let s1 := if s.replaceFlag then delete_collection s s.active else s
  let s2 :=
    if tableExists s1 s1.active then s1
    else { s1 with tables := s1.tables ++ [(s1.active, [])] }
  if s2.indexes.contains (indexName s2.active) then s2
  else { s2 with indexes := s2.indexes ++ [indexName s2.active] }

/-- Model of `PostgresDB.set_collection`: a no-op when the named collection is already
the active one, its table exists, and `replace` is not requested; otherwise
point the config at `name`, record the replace flag, and run `_setup_table`. -/
def set_collection (s : DBState) (name : String) (replace : Bool := false) : DBState :=
  if name == s.active && tableExists s name && !replace then s
  else _setup_table { s with active := name, replaceFlag := replace }

/-- Model of `PostgresDB.create_collection`: delegates to `set_collection`. -/
def create_collection (s : DBState) (name : String) (replace : Bool := false) : DBState :=
  set_collection s name replace

/-- Python `str.startswith`. -/
def pyStartswith (s pfx : String) : Bool :=
  s.data.take pfx.data.length == pfx.data

/-- The loop of `clear_all_collections`: delete each matching table, counting. -/
def clearLoop : List String → String → DBState → Nat → Nat × DBState
  | [], _, s, cnt => (cnt, s)
  | n :: rest, pfx, s, cnt =>
    if pyStartswith n pfx then clearLoop rest pfx (delete_collection s n) (cnt + 1)
    else clearLoop rest pfx s cnt

/-- Model of `PostgresDB.clear_all_collections(really, prefix)`: refuse (returning 0 and
deleting nothing) unless `really`; otherwise delete every table whose name
starts with the given prefix and count the deletions.  The Python method
returns the count; the model pairs it with the resulting state. -/
def clear_all_collections (s : DBState) (really : Bool := false)
    (pfx : String := "") : Nat × DBState :=
  if !really then (0, s)
  else clearLoop (s.tables.map (fun t => t.1)) pfx s 0

/-- Modelled from the spec: `VectorStore.maybe_add_ids` (defined in the
`VectorStore` base class, which is not under `src/`) ensures every incoming
document carries an id.  `DocMetaData` always supplies an id (Python default
factory `uuid4()`, explicit in this model), so it leaves the documents
unchanged. -/
def maybe_add_ids (documents : List Document) : List Document := documents

/-- The in-place update `doc.metadata.id = str(PostgresDB._id_to_uuid(...))`. -/
def deriveDoc (d : Document) : Document :=
  { d with metadata := { d.metadata with id := _id_to_uuid d.metadata.id d.metadata } }

/-- The row built for a document in `add_documents`. -/
def mkRecord (embedFn : String → List ℚ) (d : Document) : Record :=
  { id := d.metadata.id
    embedding := embedFn d.content
    document := d.content
    cmetadata := metadataToJson d.metadata }

/-- Does this string list contain a repeated element? -/
def hasDupStr : List String → Bool
  | [] => false
  | x :: t => t.contains x || hasDupStr t

/-- Does a plain multi-row `INSERT` violate the primary key: a new id colliding
with an existing row, or two new rows sharing an id? -/
def insertConflict (existing new : List String) : Bool :=
  new.any (fun n => existing.contains n) || hasDupStr new

/-- Model of `PostgresDB.add_documents`: rewrite each document's `metadata.id` in place
to the derived UUID, then execute one multi-row `INSERT` of the new rows into
the active embeddings table.  The `id` column is the primary key and the
statement is a plain insert (no upsert clause), so a duplicate id fails the
statement and nothing of the batch is committed (`.error`).  The returned
document list models the caller's mutated objects. -/
def add_documents (embedFn : String → List ℚ) (s : DBState)
    (documents : List Document) : Except String (DBState × List Document) :=
  let docs := (maybe_add_ids documents).map deriveDoc
  match s.tables.lookup s.active with
  | none => .error "relation does not exist"
  | some rows =>
    let new_records := docs.map (mkRecord embedFn)
    if insertConflict (rows.map (fun r => r.id)) (new_records.map (fun r => r.id)) then
      .error "duplicate key value violates unique constraint"
    else
      .ok ({ s with tables := setTable s.tables s.active (rows ++ new_records) }, docs)

/-- Model of `PostgresDB._parse_embedding_store_record`: rebuild a `Document` from a row,
overwriting the metadata `id` entry with the row's primary key. -/
def _parse_embedding_store_record (r : Record) : Document :=
  let md :=
    match r.cmetadata with
    | .obj fs => Json.obj (setKey fs "id" (.str r.id))
    | _ => Json.obj [("id", .str r.id)]
  { content := r.document, metadata := docMetaDataOfJson md }

/-- Model of `PostgresDB.get_all_documents(where)`: full scan of the active collection;
a nonempty `where` string is parsed as JSON and applied as a JSONB containment
filter on `cmetadata`.  On malformed JSON the method logs an error and returns
the empty list. -/
def get_all_documents (s : DBState) (whereStr : String := "") : List Document :=
  let rows := activeRows s
  if whereStr == "" then rows.map _parse_embedding_store_record
  else
    match jsonParse whereStr with
    | none => []
    | some q =>
      (rows.filter (fun r => jsonContains r.cmetadata q)).map
        _parse_embedding_store_record

/-- The last input position at which `x` occurs: the Python dict comprehension
enumerating `ids` lets later duplicates overwrite earlier ones. -/
def lastIdxOf (x : String) : List String → Option Nat
  | [] => none
  | a :: t =>
    match lastIdxOf x t with
    | some n => some (n + 1)
    | none => if a == x then some 0 else none

/-- The `CASE` ordinal attached to a row id to preserve input order. -/
def caseIndex (ids : List String) (x : String) : Nat :=
  (lastIdxOf x ids).getD 0

/-- Model of `PostgresDB.get_documents_by_ids`: select the rows whose id is in `ids` and
order them by the `CASE` expression mapping each id to its input position; SQL
`ORDER BY` is modelled as a stable sort on that ordinal. -/
def get_documents_by_ids (s : DBState) (ids : List String) : List Document :=
  let rows := activeRows s
  let matched := rows.filter (fun r => ids.contains r.id)
  let sorted :=
    List.insertionSort (fun r1 r2 => caseIndex ids r1.id ≤ caseIndex ids r2.id) matched
  sorted.map _parse_embedding_store_record

/-- The document built in `similar_texts_with_scores` (metadata taken straight
from `cmetadata`, without the id overwrite of
`_parse_embedding_store_record`). -/
def docOfRow (r : Record) : Document :=
  { content := r.document, metadata := docMetaDataOfJson r.cmetadata }

/-- Model of `PostgresDB.similar_texts_with_scores`: embed the query; with a `where`
filter, parse it as JSON — raising `ValueError` on malformed JSON — and keep
only rows whose metadata contains it; rank by the engine's cosine distance to
the query embedding ascending, keep the first `k`, and return each row as
`(Document, 1 - distance)`. -/
def similar_texts_with_scores (embedFn : String → List ℚ)
    (dist : List ℚ → List ℚ → ℚ) (s : DBState) (query : String) (k : Nat := 1)
    (whereOpt : Option String := none) : Except String (List (Document × ℚ)) :=
  let e := embedFn query
  let rows := activeRows s
  match whereOpt with
  | some w =>
    match jsonParse w with
    | none => .error ("Invalid JSON in where clause: " ++ w)
    | some q =>
      let filtered := rows.filter (fun r => jsonContains r.cmetadata q)
      let ranked :=
        List.insertionSort (fun r1 r2 => dist e r1.embedding ≤ dist e r2.embedding) filtered
      .ok ((ranked.take k).map (fun r => (docOfRow r, 1 - dist e r.embedding)))
  | none =>
    let ranked :=
      List.insertionSort (fun r1 r2 => dist e r1.embedding ≤ dist e r2.embedding) rows
    .ok ((ranked.take k).map (fun r => (docOfRow r, 1 - dist e r.embedding)))

/-! ## Supporting lemmas -/

theorem clearLoop_fst (pfx : String) :
    ∀ (names : List String) (s : DBState) (cnt : Nat),
      (clearLoop names pfx s cnt).1
        = cnt + (names.filter (fun n => pyStartswith n pfx)).length := by
  intro names
  induction names with
  | nil => intro s cnt; simp [clearLoop]
  | cons n rest ih =>
    intro s cnt
    cases hc : pyStartswith n pfx with
    | false => simp [clearLoop, hc, ih]
    | true => simp [clearLoop, hc, ih]; omega

theorem clearLoop_tables (pfx : String) :
    ∀ (names : List String) (s : DBState) (cnt : Nat),
      (clearLoop names pfx s cnt).2.tables
        = s.tables.filter
            (fun t => !(names.filter (fun n => pyStartswith n pfx)).contains t.1) := by
  intro names
  induction names with
  | nil => intro s cnt; simp [clearLoop]
  | cons n rest ih =>
    intro s cnt
    cases hc : pyStartswith n pfx with
    | false => simp [clearLoop, hc, ih]
    | true =>
      simp only [clearLoop, hc, if_pos, ih, delete_collection, List.filter_filter,
        List.filter_cons_of_pos]
      apply List.filter_congr
      intro t _
      by_cases hn : t.1 = n <;> simp [hn, List.contains_cons, Bool.not_or, Bool.and_comm]

/-! ## Claims -/

/-- Claim C5 (confirmed).  `clear_all_collections(confirm, prefix)` with
`confirm = false` deletes no collection and returns 0; with `confirm = true` it
deletes exactly the collections whose name starts with the prefix (the empty
prefix matching every name) and returns the number deleted. -/
theorem claim5_clear_all_gating (s : DBState) (pfx : String) :
    clear_all_collections s false pfx = (0, s) ∧
    (∀ n : String, pyStartswith n "" = true) ∧
    (clear_all_collections s true pfx).1
      = ((s.tables.map (fun t => t.1)).filter (fun n => pyStartswith n pfx)).length ∧
    (clear_all_collections s true pfx).2.tables
      = s.tables.filter (fun t => !pyStartswith t.1 pfx) := by
  refine ⟨rfl, fun n => rfl, ?_, ?_⟩
  · rw [clear_all_collections]
    simp [clearLoop_fst]
  · rw [clear_all_collections]
    simp only [Bool.not_true, if_neg, Bool.false_eq_true, not_false_eq_true,
      clearLoop_tables]
    apply List.filter_congr
    intro t ht
    cases hc : pyStartswith t.1 pfx with
    | true =>
      have hmem : t.1 ∈ (s.tables.map (fun t => t.1)).filter (fun n => pyStartswith n pfx) :=
        List.mem_filter.2 ⟨List.mem_map_of_mem _ ht, hc⟩
      have hcon : ((s.tables.map (fun t => t.1)).filter
          (fun n => pyStartswith n pfx)).contains t.1 = true := List.elem_iff.2 hmem
      rw [hcon]
    | false =>
      have hcon : ((s.tables.map (fun t => t.1)).filter
          (fun n => pyStartswith n pfx)).contains t.1 = false := by
        cases hcon : ((s.tables.map (fun t => t.1)).filter
            (fun n => pyStartswith n pfx)).contains t.1 with
        | false => rfl
        | true =>
          have := (List.mem_filter.1 (List.elem_iff.1 hcon)).2
          rw [hc] at this
          exact absurd this (by simp)
      rw [hcon]

/-- Looking up a table after replacing its rows finds the new rows. -/
theorem lookup_setTable (tables : List (String × List Record)) (name : String)
    (rows0 rows : List Record) (h : tables.lookup name = some rows0) :
    (setTable tables name rows).lookup name = some rows := by
  induction tables with
  | nil => simp [List.lookup] at h
  | cons t ts ih =>
    by_cases hn : t.1 = name
    · simp [setTable, hn, List.lookup]
    · have hn' : (name == t.1) = false := by
        simp [Ne.symm hn]
      simp only [setTable, List.lookup, hn'] at h ⊢
      have : (t.1 == name) = false := by simp [hn]
      simp only [this, Bool.false_eq_true, if_false, List.lookup, hn']
      exact ih h

/-! ### Claim C9: `create_collection` on an existing collection -/

/-- A two-collection state: `foo` is active, `bar` exists alongside it. -/
def c9state : DBState :=
  { tables := [("foo", []), ("bar", [])]
    indexes := [indexName "foo", indexName "bar"]
    active := "foo"
    replaceFlag := false }

/-- Claim C9 (counterexample).  `create_collection(name, replace := false)` on an
existing collection is not always a frame-preserving no-op: when `name` exists
but is not the active collection, the call switches the store's current default
target to `name`. -/
theorem claim9_counterexample :
    (create_collection c9state "bar" false).active = "bar" ∧
    c9state.active = "foo" := by
  exact ⟨rfl, rfl⟩

/-- Claim C9 (amended, proved).  With `replace = false` and the named collection
existing together with its index, `create_collection` leaves the tables (hence
every row) and the index set unchanged; it is a complete no-op when `name` is
already the active collection, and otherwise changes exactly the active
collection (and the recorded replace flag). -/
theorem claim9_amended (s : DBState) (name : String)
    (hta : tableExists s name = true)
    (hidx : s.indexes.contains (indexName name) = true) :
    (name = s.active → create_collection s name false = s) ∧
    (name ≠ s.active →
      create_collection s name false = { s with active := name, replaceFlag := false }) := by
  constructor
  · intro h
    subst h
    simp [create_collection, set_collection, hta]
  · intro hne
    have hb : (name == s.active) = false := by simp [hne]
    rw [create_collection, set_collection]
    simp only [hb, Bool.false_and, Bool.false_eq_true, if_false, _setup_table]
    have hta' : tableExists { s with active := name, replaceFlag := false } name = true := hta
    simp [hta', show indexName name ∈ s.indexes from List.elem_iff.1 hidx]

/-- Witness for `claim9_amended` at the concrete two-collection state. -/
theorem claim9_witness :
    tableExists c9state "bar" = true ∧
    c9state.indexes.contains (indexName "bar") = true ∧
    create_collection c9state "bar" false
      = { c9state with active := "bar", replaceFlag := false } :=
  ⟨rfl, rfl, (claim9_amended c9state "bar" rfl rfl).2 (by decide)⟩

/-! ### Claim C8: malformed filters -/

/-- A row tagged `x`. -/
def c8row : Record :=
  { id := "r1", embedding := [1], document := "hello",
    cmetadata := .obj [("id", .str "r1"), ("tag", .str "x")] }

/-- A one-row store. -/
def c8state : DBState :=
  { tables := [("embeddings", [c8row])]
    indexes := [indexName "embeddings"]
    active := "embeddings"
    replaceFlag := false }

/-- Claim C8 (counterexample).  A malformed filter string is not rejected by
`get_all_documents`: it is silently degraded into the empty list — the same
observable as a successful query with zero matches — although the store is
nonempty and the unfiltered query returns its document. -/
theorem claim8_counterexample :
    get_all_documents c8state "\x7bnot json" = [] ∧
    get_all_documents c8state "" ≠ [] := by
  constructor
  · rfl
  · intro h
    have hlen : (get_all_documents c8state "").length = 1 := rfl
    rw [h] at hlen
    simp at hlen

/-- Claim C8 (amended, proved).  On a filter string that is not valid JSON,
`similar_texts_with_scores` raises a `ValueError`-style failure distinct from
an empty result, but `get_all_documents` logs the error and returns the empty
list, indistinguishable from zero matches. -/
theorem claim8_amended (s : DBState) (w : String) (hw : jsonParse w = none) :
    (∀ (embedFn : String → List ℚ) (dist : List ℚ → List ℚ → ℚ)
        (query : String) (k : Nat),
      similar_texts_with_scores embedFn dist s query k (some w)
        = .error ("Invalid JSON in where clause: " ++ w)) ∧
    (w ≠ "" → get_all_documents s w = []) := by
  constructor
  · intro embedFn dist query k
    simp [similar_texts_with_scores, hw]
  · intro hne
    have hb : (w == "") = false := by simp [hne]
    simp [get_all_documents, hb, hw]

/-- Witness for `claim8_amended` at the concrete malformed filter. -/
theorem claim8_witness :
    jsonParse "\x7bnot json" = none ∧
    similar_texts_with_scores (fun _ => [1]) (fun _ _ => 0) c8state "q" 5
        (some "\x7bnot json")
      = .error ("Invalid JSON in where clause: " ++ "\x7bnot json") ∧
    get_all_documents c8state "\x7bnot json" = [] :=
  ⟨rfl, (claim8_amended c8state "\x7bnot json" rfl).1 (fun _ => [1]) (fun _ _ => 0) "q" 5,
   (claim8_amended c8state "\x7bnot json" rfl).2 (by decide)⟩

/-! ### Claim C1: re-insertion is not an upsert -/

/-- A trivial embedding function for concrete examples. -/
def exEmbed : String → List ℚ := fun _ => [1]

/-- A fresh store with one empty `embeddings` collection. -/
def exState0 : DBState :=
  { tables := [("embeddings", [])]
    indexes := [indexName "embeddings"]
    active := "embeddings"
    replaceFlag := false }

/-- A document with a canonical UUID id. -/
def c1doc1 : Document :=
  { content := "hello", metadata := { id := "12345678-1234-5678-1234-567812345678" } }

/-- The same identity with different content. -/
def c1doc2 : Document :=
  { content := "world", metadata := { id := "12345678-1234-5678-1234-567812345678" } }

/-- The store after inserting `c1doc1` once. -/
def c1state1 : DBState :=
  match add_documents exEmbed exState0 [c1doc1] with
  | .ok (s, _) => s
  | .error _ => exState0

/-- Claim C1 (counterexample).  Re-inserting a document whose derived id already
exists is not an upsert-overwrite: the second `add_documents` call fails (plain
`INSERT` against the primary key) instead of storing the second content, and
the stored content remains that of the first insert. -/
theorem claim1_counterexample :
    (add_documents exEmbed c1state1 [c1doc2]).isOk = false ∧
    (activeRows c1state1).map (fun r => r.document) = ["hello"] := by
  exact ⟨rfl, rfl⟩

/-- Claim C1 (amended, proved).  The write path is a plain insert, not an upsert:
(i) adding a document whose derived id already appears in the active table
fails with a duplicate-key error and commits nothing (the caller's state is
untouched); (ii) on success a table whose ids were unique keeps unique ids, so
the store never holds duplicate rows for an id. -/
theorem claim1_amended :
    (∀ (embedFn : String → List ℚ) (s : DBState) (rows : List Record) (d : Document),
      s.tables.lookup s.active = some rows →
      (rows.map (fun r => r.id)).contains (_id_to_uuid d.metadata.id d.metadata) = true →
      add_documents embedFn s [d]
        = .error "duplicate key value violates unique constraint") ∧
    (∀ (embedFn : String → List ℚ) (s : DBState) (rows : List Record) (d : Document)
        (s' : DBState) (docs' : List Document),
      s.tables.lookup s.active = some rows →
      (rows.map (fun r => r.id)).Nodup →
      add_documents embedFn s [d] = .ok (s', docs') →
      ((activeRows s').map (fun r => r.id)).Nodup) := by
  constructor
  · intro embedFn s rows d hl hc
    simp only [add_documents, maybe_add_ids, hl]
    split
    · rfl
    · next hconf =>
      exfalso
      apply hconf
      simp only [insertConflict, List.map_cons, List.map_nil, List.any_cons,
        List.any_nil, Bool.or_false, mkRecord]
      rw [show (deriveDoc d).metadata.id = _id_to_uuid d.metadata.id d.metadata from rfl]
      rw [hc]
      simp
  · intro embedFn s rows d s' docs' hl hnd h
    simp only [add_documents, maybe_add_ids, hl] at h
    split at h
    · exact absurd h (by simp)
    · next hconf =>
      rw [Except.ok.injEq, Prod.mk.injEq] at h
      obtain ⟨hs', hdocs⟩ := h
      have hnotmem : ((rows.map fun r => r.id).contains (deriveDoc d).metadata.id) = false := by
        revert hconf
        simp only [insertConflict, List.map_cons, List.map_nil, List.any_cons,
          List.any_nil, Bool.or_false, hasDupStr, mkRecord]
        cases hmem : (rows.map fun r => r.id).contains (deriveDoc d).metadata.id <;> simp
      have hrows : activeRows s' = rows ++ [mkRecord embedFn (deriveDoc d)] := by
        rw [← hs']
        simp [activeRows, lookup_setTable s.tables s.active rows _ hl]
      rw [hrows]
      simp only [List.map_append, List.map_cons, List.map_nil]
      rw [List.nodup_append]
      refine ⟨hnd, List.nodup_singleton _, ?_⟩
      intro a ha hb
      simp only [List.mem_singleton] at hb
      subst hb
      have : (rows.map fun r => r.id).contains (mkRecord embedFn (deriveDoc d)).id = true :=
        List.elem_iff.2 ha
      rw [show (mkRecord embedFn (deriveDoc d)).id = (deriveDoc d).metadata.id from rfl] at this
      rw [this] at hnotmem
      exact absurd hnotmem (by simp)

/-- Witness for `claim1_amended`: both parts at the concrete one-document
store. -/
theorem claim1_witness :
    add_documents exEmbed c1state1 [c1doc2]
        = .error "duplicate key value violates unique constraint" ∧
    ((activeRows c1state1).map (fun r => r.id)).Nodup :=
  ⟨claim1_amended.1 exEmbed c1state1 [mkRecord exEmbed (deriveDoc c1doc1)] c1doc2 rfl rfl,
   claim1_amended.2 exEmbed exState0 [] c1doc1 c1state1 [deriveDoc c1doc1] rfl
     (by simp) rfl⟩

/-! ### Claim C10: `add_documents` mutates its input -/

/-- Claim C10 (confirmed).  `add_documents` rewrites each input document's
`metadata.id` in place to the derived UUID-form id: after a successful call the
caller's document objects (the returned list models them) carry exactly the
derived ids, and those are the ids stored in the new rows appended to the
active collection. -/
theorem claim10_mutates_input (embedFn : String → List ℚ) (s : DBState)
    (documents : List Document) (s' : DBState) (docs' : List Document)
    (h : add_documents embedFn s documents = .ok (s', docs')) :
    docs' = documents.map deriveDoc ∧
    docs'.map (fun d => d.metadata.id)
      = documents.map (fun d => _id_to_uuid d.metadata.id d.metadata) ∧
    activeRows s' = activeRows s ++ docs'.map (mkRecord embedFn) := by
  cases hl : s.tables.lookup s.active with
  | none =>
    simp only [add_documents, maybe_add_ids, hl] at h
    exact absurd h (by simp)
  | some rows =>
    simp only [add_documents, maybe_add_ids, hl] at h
    split at h
    · exact absurd h (by simp)
    · rw [Except.ok.injEq, Prod.mk.injEq] at h
      obtain ⟨hs', hdocs⟩ := h
      subst hdocs
      refine ⟨rfl, ?_, ?_⟩
      · simp [deriveDoc]
      · have hrows : activeRows s'
            = rows ++ (documents.map deriveDoc).map (mkRecord embedFn) := by
          rw [← hs']
          simp [activeRows, lookup_setTable s.tables s.active rows _ hl]
        rw [hrows, show activeRows s = rows from by simp [activeRows, hl]]

/-- Witness for `claim10_mutates_input` at the concrete insert. -/
theorem claim10_witness :
    [deriveDoc c1doc1] = [c1doc1].map deriveDoc ∧
    [deriveDoc c1doc1].map (fun d => d.metadata.id)
      = [c1doc1].map (fun d => _id_to_uuid d.metadata.id d.metadata) ∧
    activeRows c1state1 = activeRows exState0 ++ [deriveDoc c1doc1].map (mkRecord exEmbed) :=
  claim10_mutates_input exEmbed exState0 [c1doc1] c1state1 [deriveDoc c1doc1] rfl

/-! ### Claims C2 and C3: the Identity Assigner -/

theorem natToHex_length (w : Nat) : ∀ n, (natToHex w n).length = w := by
  induction w with
  | zero => intro n; rfl
  | succ w ih => intro n; simp [natToHex, ih]

theorem hexDigit_props (d : Nat) (h : d < 16) :
    isHexDigitChar (hexDigit d) = true ∧ hexVal (hexDigit d) = d ∧
    hexDigit d ≠ ':' ∧ (hexDigit d != '-') = true ∧ isBraceChar (hexDigit d) = false := by
  interval_cases d <;> exact ⟨by decide, by decide, by decide, by decide, by decide⟩

theorem natToHex_mem (w : Nat) : ∀ n c, c ∈ natToHex w n →
    isHexDigitChar c = true ∧ c ≠ ':' ∧ (c != '-') = true ∧ isBraceChar c = false := by
  induction w with
  | zero => intro n c hc; simp [natToHex] at hc
  | succ w ih =>
    intro n c hc
    simp only [natToHex, List.mem_append, List.mem_singleton] at hc
    rcases hc with hc | hc
    · exact ih _ c hc
    · subst hc
      have hd := hexDigit_props (n % 16) (Nat.mod_lt _ (by norm_num))
      exact ⟨hd.1, hd.2.2.1, hd.2.2.2.1, hd.2.2.2.2⟩

theorem hexToNat_append_digit (l : List Char) (c : Char) :
    hexToNat (l ++ [c]) = hexToNat l * 16 + hexVal c := by
  simp [hexToNat, List.foldl_append]

theorem hexToNat_natToHex (w : Nat) : ∀ n, n < 16 ^ w → hexToNat (natToHex w n) = n := by
  induction w with
  | zero =>
    intro n hn
    interval_cases n
    rfl
  | succ w ih =>
    intro n hn
    rw [natToHex, hexToNat_append_digit]
    have hdiv : n / 16 < 16 ^ w := by
      rw [Nat.div_lt_iff_lt_mul (by norm_num)]
      calc n < 16 ^ (w + 1) := hn
        _ = 16 ^ w * 16 := by rw [pow_succ]
    rw [ih _ hdiv, (hexDigit_props (n % 16) (Nat.mod_lt _ (by norm_num))).2.1]
    omega

theorem natToHex_mod (w : Nat) : ∀ n, natToHex w (n % 16 ^ w) = natToHex w n := by
  induction w with
  | zero => intro n; rfl
  | succ w ih =>
    intro n
    rw [natToHex, natToHex]
    congr 1
    · rw [← ih (n / 16)]
      congr 1
      rw [pow_succ, mul_comm, Nat.mod_mul_right_div_self]
    · congr 1
      congr 1
      exact Nat.mod_mod_of_dvd n (dvd_pow_self 16 (Nat.succ_ne_zero w))

theorem formatUUID_mod (n : Nat) : formatUUID (n % 2 ^ 128) = formatUUID n := by
  rw [formatUUID, formatUUID, show (2 : Nat) ^ 128 = 16 ^ 32 by norm_num, natToHex_mod]

theorem mem_of_isPrefixOf (pat : List Char) :
    ∀ l : List Char, pat.isPrefixOf l = true → ∀ c ∈ pat, c ∈ l := by
  induction pat with
  | nil => intro l _ c hc; simp at hc
  | cons p ps ih =>
    intro l h c hc
    cases l with
    | nil => simp [List.isPrefixOf] at h
    | cons a t =>
      simp only [List.isPrefixOf, Bool.and_eq_true, beq_iff_eq] at h
      rcases List.mem_cons.1 hc with rfl | hmem
      · exact h.1 ▸ List.mem_cons_self _ _
      · exact List.mem_cons_of_mem _ (ih t h.2 c hmem)

theorem removeSubAux_no_occ (pat : List Char) (c0 : Char) (hc0 : c0 ∈ pat) :
    ∀ (fuel : Nat) (l : List Char), (∀ c ∈ l, c ≠ c0) → removeSubAux pat fuel l = l := by
  intro fuel
  induction fuel with
  | zero => intro l _; cases l <;> rfl
  | succ fuel ih =>
    intro l hl
    cases l with
    | nil => rfl
    | cons c rest =>
      rw [removeSubAux, if_neg]
      · rw [ih rest (fun x hx => hl x (List.mem_cons_of_mem _ hx))]
      · rintro ⟨_, hpre⟩
        exact hl c0 (mem_of_isPrefixOf pat _ hpre c0 hc0) rfl

theorem removeSub_no_occ (pat : List Char) (c0 : Char) (hc0 : c0 ∈ pat)
    (l : List Char) (hl : ∀ c ∈ l, c ≠ c0) : removeSub pat l = l :=
  removeSubAux_no_occ pat c0 hc0 l.length l hl

theorem dropWhile_eq_self_of_false (p : Char → Bool) (l : List Char)
    (hl : ∀ c ∈ l, p c = false) : l.dropWhile p = l := by
  cases l with
  | nil => rfl
  | cons c rest =>
    rw [List.dropWhile_cons, hl c (by simp)]
    simp

theorem stripBraces_eq_self (l : List Char) (hl : ∀ c ∈ l, isBraceChar c = false) :
    stripBraces l = l := by
  rw [stripBraces, dropWhile_eq_self_of_false _ l hl,
    dropWhile_eq_self_of_false _ l.reverse (fun c hc => hl c (List.mem_reverse.1 hc)),
    List.reverse_reverse]

theorem filter_uuidHyphens (l : List Char) (hl : ∀ c ∈ l, (c != '-') = true) :
    (uuidHyphens l).filter (fun c => c != '-')
      = l.take 8 ++ ((l.drop 8).take 4 ++ ((l.drop 12).take 4 ++
          ((l.drop 16).take 4 ++ l.drop 20))) := by
  have hA : ∀ t : List Char, t ⊆ l → t.filter (fun c => c != '-') = t := fun t hsub =>
    List.filter_eq_self.2 (fun c hc => hl c (hsub hc))
  rw [uuidHyphens]
  simp only [List.filter_append, List.filter_cons,
    show (('-' : Char) != '-') = false from rfl, Bool.false_eq_true, if_false]
  rw [hA _ (List.take_subset _ _),
    hA _ ((List.take_subset _ _).trans (List.drop_subset _ _)),
    hA _ ((List.take_subset _ _).trans (List.drop_subset _ _)),
    hA _ ((List.take_subset _ _).trans (List.drop_subset _ _)),
    hA _ (List.drop_subset _ _)]

theorem take_drop_reassemble (l : List Char) :
    l.take 8 ++ ((l.drop 8).take 4 ++ ((l.drop 12).take 4 ++
      ((l.drop 16).take 4 ++ l.drop 20))) = l := by
  have e20 : (l.drop 16).drop 4 = l.drop 20 := by rw [List.drop_drop]
  have e16 : (l.drop 12).drop 4 = l.drop 16 := by rw [List.drop_drop]
  have e12 : (l.drop 8).drop 4 = l.drop 12 := by rw [List.drop_drop]
  rw [← e20, List.take_append_drop, ← e16, List.take_append_drop, ← e12,
    List.take_append_drop, List.take_append_drop]

theorem uuidHyphens_mem (l : List Char) (c : Char) (hc : c ∈ uuidHyphens l) :
    c = '-' ∨ c ∈ l := by
  rw [uuidHyphens] at hc
  simp only [List.mem_append, List.mem_cons] at hc
  have sub8 : ∀ x ∈ l.take 8, x ∈ l := fun x hx => List.take_subset _ _ hx
  have subD : ∀ (n : Nat), ∀ x ∈ (l.drop n).take 4, x ∈ l := fun n x hx =>
    List.drop_subset _ _ (List.take_subset _ _ hx)
  rcases hc with h | h | h | h | h | h | h | h | h
  · exact Or.inr (sub8 c h)
  · exact Or.inl h
  · exact Or.inr (subD 8 c h)
  · exact Or.inl h
  · exact Or.inr (subD 12 c h)
  · exact Or.inl h
  · exact Or.inr (subD 16 c h)
  · exact Or.inl h
  · exact Or.inr (List.drop_subset _ _ h)

theorem pyUUIDCanon_formatUUID (n : Nat) (hn : n < 2 ^ 128) :
    pyUUIDCanon (formatUUID n) = some (formatUUID n) := by
  have hmem := natToHex_mem 32 n
  have hx_ne : ∀ c ∈ uuidHyphens (natToHex 32 n), c ≠ ':' := by
    intro c hc
    rcases uuidHyphens_mem _ c hc with rfl | h
    · decide
    · exact (hmem c h).2.1
  have hx_nb : ∀ c ∈ uuidHyphens (natToHex 32 n), isBraceChar c = false := by
    intro c hc
    rcases uuidHyphens_mem _ c hc with rfl | h
    · decide
    · exact (hmem c h).2.2.2
  simp only [pyUUIDCanon]
  rw [show (formatUUID n).data = uuidHyphens (natToHex 32 n) from rfl]
  rw [removeSub_no_occ _ ':' (by decide) _ hx_ne,
    removeSub_no_occ _ ':' (by decide) _ hx_ne,
    stripBraces_eq_self _ hx_nb,
    filter_uuidHyphens _ (fun c hc => (hmem c hc).2.2.1), take_drop_reassemble]
  rw [if_pos ⟨natToHex_length 32 n, List.all_eq_true.2 (fun c hc => (hmem c hc).1)⟩]
  rw [hexToNat_natToHex 32 n (by
    calc n < 2 ^ 128 := hn
      _ = 16 ^ 32 := by norm_num)]

/-- A throwaway metadata value (the parse branch ignores it). -/
def c2md : DocMetaData := { id := "m" }

/-- Claim C2 (counterexample).  A well-formed but non-canonical UUID string (here
with uppercase hex digits) is accepted by the `uuid.UUID` constructor yet not
returned character-for-character: `_id_to_uuid` returns the canonical lowercase
form instead. -/
theorem claim2_counterexample :
    pyUUIDCanon "12345678-1234-5678-1234-56781234ABCD" ≠ none ∧
    _id_to_uuid "12345678-1234-5678-1234-56781234ABCD" c2md
      ≠ "12345678-1234-5678-1234-56781234ABCD" := by
  exact ⟨by decide, by decide⟩

/-- Claim C2 (amended, proved).  A candidate id accepted by the UUID parser is
replaced by its canonical lowercase hyphenated form; an id already canonical
(any `formatUUID n`) is returned unchanged. -/
theorem claim2_amended (m : DocMetaData) (n : Nat) (hn : n < 2 ^ 128) :
    _id_to_uuid (formatUUID n) m = formatUUID n := by
  simp only [_id_to_uuid, pyUUIDCanon_formatUUID n hn]

/-- Witness for `claim2_amended` at `n = 0`. -/
theorem claim2_witness :
    (0 : Nat) < 2 ^ 128 ∧ _id_to_uuid (formatUUID 0) c2md = formatUUID 0 :=
  ⟨by norm_num, claim2_amended c2md 0 (by norm_num)⟩

/-- The 128-bit value `_id_to_uuid` derives on the hash branch for the
non-UUID candidate id `"doc"`. -/
def c3hashInt (m : DocMetaData) : Nat :=
  uuid5Int namespaceDNSBytes
    (strBytes ("doc" ++ "-" ++ bytesToHex (sha256Bytes (strBytes (reprDocMetaData m)))))

theorem c3_id_to_uuid_eq (m : DocMetaData) :
    _id_to_uuid "doc" m = formatUUID (c3hashInt m) := rfl

/-- Metadata values varying only in the id field. -/
def mdOfNat (n : Nat) : DocMetaData := { id := String.mk (List.replicate n 'a') }

instance : Infinite DocMetaData :=
  Infinite.of_injective mdOfNat (by
    intro a b h
    have h2 : String.mk (List.replicate a 'a') = String.mk (List.replicate b 'a') :=
      congrArg DocMetaData.id h
    have hlen := congrArg (fun s => s.data.length) h2
    simpa using hlen)

/-- Claim C3 (counterexample).  The injectivity half of the claim cannot hold:
`_id_to_uuid` maps the infinitely many metadata values into the finite set of
128-bit UUID strings, so two distinct metadata values (under the non-UUID
candidate id `"doc"`) must receive the same derived id. -/
theorem claim3_counterexample :
    ¬ ∀ (m1 m2 : DocMetaData), m1 ≠ m2 → _id_to_uuid "doc" m1 ≠ _id_to_uuid "doc" m2 := by
  intro hinj
  obtain ⟨m1, m2, hne, heq⟩ :=
    Finite.exists_ne_map_eq_of_infinite
      (fun m : DocMetaData =>
        (⟨c3hashInt m % 2 ^ 128, Nat.mod_lt _ (by positivity)⟩ : Fin (2 ^ 128)))
  apply hinj m1 m2 hne
  rw [c3_id_to_uuid_eq, c3_id_to_uuid_eq]
  have hmod : c3hashInt m1 % 2 ^ 128 = c3hashInt m2 % 2 ^ 128 := congrArg Fin.val heq
  calc formatUUID (c3hashInt m1) = formatUUID (c3hashInt m1 % 2 ^ 128) :=
        (formatUUID_mod _).symm
    _ = formatUUID (c3hashInt m2 % 2 ^ 128) := by rw [hmod]
    _ = formatUUID (c3hashInt m2) := formatUUID_mod _

theorem formatUUID_length (n : Nat) : (formatUUID n).length = 36 := by
  rw [formatUUID]
  show (uuidHyphens (natToHex 32 n)).length = 36
  rw [uuidHyphens]
  simp [List.length_append, List.length_take, List.length_drop, natToHex_length]

theorem pyUUIDCanon_some_shape (s c : String) (h : pyUUIDCanon s = some c) :
    ∃ n, c = formatUUID n := by
  simp only [pyUUIDCanon] at h
  split at h
  · exact ⟨_, (Option.some.inj h).symm⟩
  · exact absurd h (by simp)

/-- Claim C3 (amended, proved).  `_id_to_uuid` is total — every call returns a
36-character UUID-form string without raising — and deterministic (a pure
function of its two arguments); but distinct metadata values need not receive
distinct ids (see the counterexample). -/
theorem claim3_amended (id : String) (m : DocMetaData) :
    (_id_to_uuid id m).length = 36 ∧ _id_to_uuid id m = _id_to_uuid id m := by
  refine ⟨?_, rfl⟩
  cases hp : pyUUIDCanon id with
  | none =>
    simp only [_id_to_uuid, hp]
    exact formatUUID_length _
  | some c =>
    obtain ⟨n, rfl⟩ := pyUUIDCanon_some_shape id c hp
    simp only [_id_to_uuid, hp]
    exact formatUUID_length _

/-! ### Claims C6 and C7: similarity search -/

/-- Claim C7 (confirmed).  Without a filter, `similar_texts_with_scores` returns
at most `k` pairs; every returned pair comes from a stored row with score
`1 - distance(query embedding, stored embedding)`; and the sequence is ordered
by ascending distance, i.e. descending score. -/
theorem claim7_topk_scores (embedFn : String → List ℚ) (dist : List ℚ → List ℚ → ℚ)
    (s : DBState) (query : String) (k : Nat) (res : List (Document × ℚ))
    (h : similar_texts_with_scores embedFn dist s query k none = .ok res) :
    res.length ≤ k ∧
    (∀ p ∈ res, ∃ r ∈ activeRows s,
       p.1 = docOfRow r ∧ p.2 = 1 - dist (embedFn query) r.embedding) ∧
    res.Pairwise (fun p p' => p'.2 ≤ p.2) := by
  have hres : res = ((List.insertionSort
      (fun r1 r2 => dist (embedFn query) r1.embedding ≤ dist (embedFn query) r2.embedding)
      (activeRows s)).take k).map
      (fun r => (docOfRow r, 1 - dist (embedFn query) r.embedding)) := by
    simp only [similar_texts_with_scores] at h
    exact (Except.ok.inj h).symm
  subst hres
  refine ⟨?_, ?_, ?_⟩
  · rw [List.length_map, List.length_take]
    omega
  · intro p hp
    obtain ⟨r, hr, rfl⟩ := List.mem_map.1 hp
    have hr2 := List.mem_of_mem_take hr
    have hr3 : r ∈ activeRows s :=
      (List.perm_insertionSort
        (fun r1 r2 => dist (embedFn query) r1.embedding ≤ dist (embedFn query) r2.embedding)
        (activeRows s)).subset hr2
    exact ⟨r, hr3, rfl, rfl⟩
  · haveI : IsTotal Record
        (fun r1 r2 => dist (embedFn query) r1.embedding ≤ dist (embedFn query) r2.embedding) :=
      ⟨fun a b => le_total _ _⟩
    haveI : IsTrans Record
        (fun r1 r2 => dist (embedFn query) r1.embedding ≤ dist (embedFn query) r2.embedding) :=
      ⟨fun _ _ _ hab hbc => le_trans hab hbc⟩
    have hsorted := List.sorted_insertionSort
      (fun r1 r2 => dist (embedFn query) r1.embedding ≤ dist (embedFn query) r2.embedding)
      (activeRows s)
    have htake := hsorted.sublist (List.take_sublist k _)
    refine List.Pairwise.map _ ?_ htake
    intro a b hab
    simp only
    linarith

/-- A row with embedding distance 0 from everything (under `c7dist`). -/
def c7rowA : Record :=
  { id := "a", embedding := [0], document := "da", cmetadata := .obj [("id", .str "a")] }

/-- A row with embedding distance 1 from everything (under `c7dist`). -/
def c7rowB : Record :=
  { id := "b", embedding := [1], document := "db", cmetadata := .obj [("id", .str "b")] }

/-- A two-row store, stored farthest-first. -/
def c7state : DBState :=
  { tables := [("embeddings", [c7rowB, c7rowA])]
    indexes := [indexName "embeddings"]
    active := "embeddings"
    replaceFlag := false }

/-- A toy distance: the head of the stored embedding. -/
def c7dist : List ℚ → List ℚ → ℚ := fun _ v => v.headD 0

/-- A toy embedding function. -/
def c7embed : String → List ℚ := fun _ => []

/-- The ranked result for the two-row store. -/
def c7res : List (Document × ℚ) :=
  [(docOfRow c7rowA, 1 - c7dist (c7embed "q") c7rowA.embedding),
   (docOfRow c7rowB, 1 - c7dist (c7embed "q") c7rowB.embedding)]

/-- Witness for `claim7_topk_scores` at the concrete two-row store. -/
theorem claim7_witness :
    similar_texts_with_scores c7embed c7dist c7state "q" 2 none = .ok c7res ∧
    (c7res.length ≤ 2 ∧
     (∀ p ∈ c7res, ∃ r ∈ activeRows c7state,
        p.1 = docOfRow r ∧ p.2 = 1 - c7dist (c7embed "q") r.embedding) ∧
     c7res.Pairwise (fun p p' => p'.2 ≤ p.2)) :=
  ⟨rfl, claim7_topk_scores c7embed c7dist c7state "q" 2 c7res rfl⟩

/-- Claim C6 (confirmed).  With a well-formed filter, every returned pair of
`similar_texts_with_scores` originates from a stored row whose metadata
contains the filter object — filtering happens before ranking and truncation —
and the result length is `min k` (number of matching rows), so matching rows
are never crowded out by closer non-matching ones. -/
theorem claim6_filter_then_rank (embedFn : String → List ℚ)
    (dist : List ℚ → List ℚ → ℚ) (s : DBState) (query : String) (k : Nat)
    (w : String) (q : Json) (res : List (Document × ℚ))
    (hw : jsonParse w = some q)
    (h : similar_texts_with_scores embedFn dist s query k (some w) = .ok res) :
    (∀ p ∈ res, ∃ r ∈ activeRows s, jsonContains r.cmetadata q = true ∧
        p.1 = docOfRow r ∧ p.2 = 1 - dist (embedFn query) r.embedding) ∧
    res.length
      = min k ((activeRows s).filter (fun r => jsonContains r.cmetadata q)).length := by
  have hres : res = ((List.insertionSort
      (fun r1 r2 => dist (embedFn query) r1.embedding ≤ dist (embedFn query) r2.embedding)
      ((activeRows s).filter (fun r => jsonContains r.cmetadata q))).take k).map
      (fun r => (docOfRow r, 1 - dist (embedFn query) r.embedding)) := by
    simp only [similar_texts_with_scores, hw] at h
    exact (Except.ok.inj h).symm
  subst hres
  constructor
  · intro p hp
    obtain ⟨r, hr, rfl⟩ := List.mem_map.1 hp
    have hr2 := List.mem_of_mem_take hr
    have hr3 : r ∈ (activeRows s).filter (fun r => jsonContains r.cmetadata q) :=
      (List.perm_insertionSort _ _).subset hr2
    have hr4 := List.mem_filter.1 hr3
    exact ⟨r, hr4.1, hr4.2, rfl, rfl⟩
  · rw [List.length_map, List.length_take, (List.perm_insertionSort _ _).length_eq]

/-- A row tagged `x`, far from every query under `c7dist`. -/
def c6rowX : Record :=
  { id := "x1", embedding := [1], document := "dx",
    cmetadata := .obj [("id", .str "x1"), ("tag", .str "x")] }

/-- A row tagged `y`, closest to every query under `c7dist`. -/
def c6rowY : Record :=
  { id := "y1", embedding := [0], document := "dy",
    cmetadata := .obj [("id", .str "y1"), ("tag", .str "y")] }

/-- A store holding one `x`-tagged and one (closer) `y`-tagged row. -/
def c6state : DBState :=
  { tables := [("embeddings", [c6rowX, c6rowY])]
    indexes := [indexName "embeddings"]
    active := "embeddings"
    replaceFlag := false }

/-- The parsed filter `tag = x`. -/
def c6q : Json := .obj [("tag", .str "x")]

/-- The filtered similarity result: only the `x`-tagged row, although the
`y`-tagged row is closer by raw distance. -/
def c6res : List (Document × ℚ) :=
  [(docOfRow c6rowX, 1 - c7dist (c7embed "q") c6rowX.embedding)]

/-- Witness for `claim6_filter_then_rank` at the concrete tagged store. -/
theorem claim6_witness :
    jsonParse "\x7b\"tag\": \"x\"\x7d" = some c6q ∧
    similar_texts_with_scores c7embed c7dist c6state "q" 5
        (some "\x7b\"tag\": \"x\"\x7d") = .ok c6res ∧
    ((∀ p ∈ c6res, ∃ r ∈ activeRows c6state, jsonContains r.cmetadata c6q = true ∧
        p.1 = docOfRow r ∧ p.2 = 1 - c7dist (c7embed "q") r.embedding) ∧
     c6res.length
       = min 5 ((activeRows c6state).filter
           (fun r => jsonContains r.cmetadata c6q)).length) :=
  ⟨rfl, rfl,
   claim6_filter_then_rank c7embed c7dist c6state "q" 5 "\x7b\"tag\": \"x\"\x7d" c6q c6res
     rfl rfl⟩

/-! ### Claim C4: order preservation in `get_documents_by_ids` -/

theorem lastIdxOf_eq_none (x : String) :
    ∀ l : List String, x ∉ l → lastIdxOf x l = none := by
  intro l
  induction l with
  | nil => intro _; rfl
  | cons a t ih =>
    intro hx
    rw [lastIdxOf, ih (fun h => hx (List.mem_cons_of_mem _ h))]
    have hne : (a == x) = false := by
      simp only [beq_eq_false_iff_ne]
      intro h
      exact hx (h ▸ List.mem_cons_self a t)
    simp [hne]

theorem lastIdxOf_mem (x : String) :
    ∀ l : List String, x ∈ l → ∃ n, lastIdxOf x l = some n := by
  intro l
  induction l with
  | nil => intro h; simp at h
  | cons a t ih =>
    intro hx
    rw [lastIdxOf]
    cases ht : lastIdxOf x t with
    | some n => exact ⟨n + 1, rfl⟩
    | none =>
      rcases List.mem_cons.1 hx with h | hmem
      · refine ⟨0, ?_⟩
        rw [show (a == x) = true from by simp [h.symm]]
        rfl
      · obtain ⟨n, hn⟩ := ih hmem
        rw [hn] at ht
        cases ht

theorem lastIdxOf_get (x : String) :
    ∀ (l : List String) (n : Nat), lastIdxOf x l = some n →
      n < l.length ∧ l.getD n "" = x := by
  intro l
  induction l with
  | nil => intro n h; cases h
  | cons a t ih =>
    intro n h
    rw [lastIdxOf] at h
    cases ht : lastIdxOf x t with
    | some m =>
      rw [ht] at h
      obtain rfl : m + 1 = n := by cases h; rfl
      obtain ⟨hlt, hget⟩ := ih m ht
      exact ⟨by simpa using hlt, by simpa using hget⟩
    | none =>
      rw [ht] at h
      by_cases ha : (a == x) = true
      · rw [ha] at h
        simp only [if_true] at h
        obtain rfl : 0 = n := by cases h; rfl
        exact ⟨by simp, eq_of_beq ha⟩
      · rw [Bool.not_eq_true] at ha
        rw [ha] at h
        simp at h

theorem caseIndex_inj (ids : List String) (x y : String) (hx : x ∈ ids) (hy : y ∈ ids)
    (h : caseIndex ids x = caseIndex ids y) : x = y := by
  obtain ⟨n, hn⟩ := lastIdxOf_mem x ids hx
  obtain ⟨m, hm⟩ := lastIdxOf_mem y ids hy
  rw [caseIndex, caseIndex, hn, hm] at h
  simp only [Option.getD_some] at h
  subst h
  rw [← (lastIdxOf_get x ids n hn).2, ← (lastIdxOf_get y ids n hm).2]

theorem caseIndex_cons_mem (i x : String) (rest : List String) (hx : x ∈ rest) :
    caseIndex (i :: rest) x = caseIndex rest x + 1 := by
  obtain ⟨n, hn⟩ := lastIdxOf_mem x rest hx
  rw [caseIndex, caseIndex, lastIdxOf, hn]
  rfl

theorem caseIndex_cons_self (i : String) (rest : List String) (hi : i ∉ rest) :
    caseIndex (i :: rest) i = 0 := by
  rw [caseIndex, lastIdxOf, lastIdxOf_eq_none i rest hi]
  simp

theorem mem_idTarget (rows : List Record) (ids : List String) (r : Record)
    (h : r ∈ ids.filterMap (fun i => rows.find? (fun x => x.id == i))) :
    r ∈ rows ∧ r.id ∈ ids := by
  obtain ⟨i, hi, hfind⟩ := List.mem_filterMap.1 h
  refine ⟨List.mem_of_find?_eq_some hfind, ?_⟩
  have hb0 := List.find?_some hfind
  have hb : (r.id == i) = true := hb0
  rw [eq_of_beq hb]
  exact hi

theorem find?_id_eq_self (rows : List Record)
    (hnd : (rows.map (fun r => r.id)).Nodup) (r : Record) (hr : r ∈ rows) :
    rows.find? (fun x => x.id == r.id) = some r := by
  induction rows with
  | nil => simp at hr
  | cons a t ih =>
    by_cases ha : a.id = r.id
    · have heq : a = r :=
        List.inj_on_of_nodup_map hnd (List.mem_cons_self _ _) hr ha
      subst heq
      exact List.find?_cons_of_pos _ (by simp)
    · rcases List.mem_cons.1 hr with h | hmem
      · exact absurd (congrArg (fun x => x.id) h.symm) ha
      · rw [List.find?_cons_of_neg _ (by simpa using ha)]
        exact ih ((List.nodup_cons.1 (by simpa using hnd)).2) hmem

theorem idTarget_nodup (rows : List Record) (ids : List String) (hids : ids.Nodup) :
    (ids.filterMap (fun i => rows.find? (fun x => x.id == i))).Nodup := by
  refine List.Nodup.filterMap ?_ hids
  intro a b c hca hcb
  rw [Option.mem_def] at hca hcb
  have h10 := List.find?_some hca
  have h20 := List.find?_some hcb
  have h1 : (c.id == a) = true := h10
  have h2 : (c.id == b) = true := h20
  rw [← eq_of_beq h1, ← eq_of_beq h2]

theorem idTarget_sorted (rows : List Record) :
    ∀ ids : List String, ids.Nodup →
      (ids.filterMap (fun i => rows.find? (fun x => x.id == i))).Pairwise
        (fun a b => caseIndex ids a.id < caseIndex ids b.id) := by
  intro ids
  induction ids with
  | nil => intro _; simp
  | cons i rest ih =>
    intro hnd
    have hi : i ∉ rest := (List.nodup_cons.1 hnd).1
    have hrest : rest.Nodup := (List.nodup_cons.1 hnd).2
    have hlift : ∀ (p : List Record) (hp : p = rest.filterMap
          (fun j => rows.find? (fun x => x.id == j))),
        p.Pairwise (fun a b => caseIndex rest a.id < caseIndex rest b.id) →
        p.Pairwise (fun a b => caseIndex (i :: rest) a.id < caseIndex (i :: rest) b.id) := by
      intro p hp hpw
      refine hpw.imp_of_mem ?_
      intro a b ha hb hab
      have ha' : a.id ∈ rest := (mem_idTarget rows rest a (hp ▸ ha)).2
      have hb' : b.id ∈ rest := (mem_idTarget rows rest b (hp ▸ hb)).2
      rw [caseIndex_cons_mem i _ rest ha', caseIndex_cons_mem i _ rest hb']
      omega
    rw [List.filterMap_cons]
    cases hf : rows.find? (fun x => x.id == i) with
    | none => exact hlift _ rfl (ih hrest)
    | some r =>
      rw [List.pairwise_cons]
      constructor
      · intro b hb
        have hb' : b.id ∈ rest := (mem_idTarget rows rest b hb).2
        have hbeq0 := List.find?_some hf
        have hbeq : (r.id == i) = true := hbeq0
        have hr : r.id = i := eq_of_beq hbeq
        rw [hr, caseIndex_cons_self i rest hi, caseIndex_cons_mem i _ rest hb']
        omega
      · exact hlift _ rfl (ih hrest)

theorem idTarget_perm_matched (rows : List Record) (ids : List String)
    (hids : ids.Nodup) (hrows : (rows.map (fun r => r.id)).Nodup) :
    List.Perm (ids.filterMap (fun i => rows.find? (fun x => x.id == i)))
      (rows.filter (fun r => ids.contains r.id)) := by
  refine (List.perm_ext_iff_of_nodup (idTarget_nodup rows ids hids)
    ((List.Nodup.of_map _ hrows).filter _)).2 ?_
  intro r
  constructor
  · intro h
    obtain ⟨hr, hid⟩ := mem_idTarget rows ids r h
    exact List.mem_filter.2 ⟨hr, List.elem_iff.2 hid⟩
  · intro h
    obtain ⟨hr, hc⟩ := List.mem_filter.1 h
    exact List.mem_filterMap.2 ⟨r.id, List.elem_iff.1 hc, find?_id_eq_self rows hrows r hr⟩

/-- Claim C4 (amended, proved).  For a duplicate-free input id sequence (over a
table with unique primary keys), `get_documents_by_ids` returns exactly the
documents of the found ids, aligned to the input order with unknown ids simply
absent: it equals mapping each input id, in order, to its row when present. -/
theorem claim4_amended (s : DBState) (ids : List String)
    (hids : ids.Nodup) (hrows : ((activeRows s).map (fun r => r.id)).Nodup) :
    get_documents_by_ids s ids
      = (ids.filterMap (fun i => (activeRows s).find? (fun r => r.id == i))).map
          _parse_embedding_store_record := by
  simp only [get_documents_by_ids]
  congr 1
  haveI : IsTotal Record (fun r1 r2 => caseIndex ids r1.id ≤ caseIndex ids r2.id) :=
    ⟨fun a b => le_total _ _⟩
  haveI : IsTrans Record (fun r1 r2 => caseIndex ids r1.id ≤ caseIndex ids r2.id) :=
    ⟨fun _ _ _ hab hbc => le_trans hab hbc⟩
  have hperm : List.Perm (List.insertionSort
        (fun r1 r2 => caseIndex ids r1.id ≤ caseIndex ids r2.id)
        ((activeRows s).filter (fun r => ids.contains r.id)))
      (ids.filterMap (fun i => (activeRows s).find? (fun r => r.id == i))) :=
    (List.perm_insertionSort _ _).trans (idTarget_perm_matched _ ids hids hrows).symm
  have hsorted := List.sorted_insertionSort
    (fun r1 r2 => caseIndex ids r1.id ≤ caseIndex ids r2.id)
    ((activeRows s).filter (fun r => ids.contains r.id))
  have hmatched_nodup : ((activeRows s).filter (fun r => ids.contains r.id)).Nodup :=
    (List.Nodup.of_map _ hrows).filter _
  have hsort_nodup := ((List.perm_insertionSort
      (fun r1 r2 => caseIndex ids r1.id ≤ caseIndex ids r2.id)
      ((activeRows s).filter (fun r => ids.contains r.id))).nodup_iff).2 hmatched_nodup
  have hstrict : (List.insertionSort
      (fun r1 r2 => caseIndex ids r1.id ≤ caseIndex ids r2.id)
      ((activeRows s).filter (fun r => ids.contains r.id))).Pairwise
        (fun a b => caseIndex ids a.id < caseIndex ids b.id) := by
    refine ((List.Pairwise.and hsorted hsort_nodup).imp_of_mem ?_)
    intro a b ha hb hab
    obtain ⟨hle, hneq⟩ := hab
    rcases lt_or_eq_of_le hle with hlt | heqidx
    · exact hlt
    · exfalso
      have ha' := List.mem_filter.1 ((List.perm_insertionSort _ _).subset ha)
      have hb' := List.mem_filter.1 ((List.perm_insertionSort _ _).subset hb)
      have hid : a.id = b.id := caseIndex_inj ids _ _
        (List.elem_iff.1 ha'.2) (List.elem_iff.1 hb'.2) heqidx
      exact hneq (List.inj_on_of_nodup_map hrows ha'.1 hb'.1 hid)
  haveI : IsAntisymm Record (fun a b => caseIndex ids a.id < caseIndex ids b.id) :=
    ⟨fun _ _ h1 h2 => absurd (lt_trans h1 h2) (lt_irrefl _)⟩
  exact List.eq_of_perm_of_sorted hperm hstrict (idTarget_sorted (activeRows s) ids hids)

/-- Row `a` for the lookup examples. -/
def c4rowA : Record :=
  { id := "a", embedding := [], document := "dA", cmetadata := .obj [("id", .str "a")] }

/-- Row `b` for the lookup examples. -/
def c4rowB : Record :=
  { id := "b", embedding := [], document := "dB", cmetadata := .obj [("id", .str "b")] }

/-- Row `c` for the lookup examples. -/
def c4rowC : Record :=
  { id := "c", embedding := [], document := "dC", cmetadata := .obj [("id", .str "c")] }

/-- A store containing rows `a`, `b` in storage order. -/
def c4state : DBState :=
  { tables := [("embeddings", [c4rowA, c4rowB])]
    indexes := [indexName "embeddings"]
    active := "embeddings"
    replaceFlag := false }

/-- A store containing rows `a`, `b`, `c` in storage order. -/
def c4state3 : DBState :=
  { tables := [("embeddings", [c4rowA, c4rowB, c4rowC])]
    indexes := [indexName "embeddings"]
    active := "embeddings"
    replaceFlag := false }

/-- Claim C4 (counterexample).  The claim fails for input sequences with a
repeated id: the Python dict comprehension keeps the *last* occurrence index,
so `get_documents_by_ids(["a","b","a"])` on a store holding `a` and `b` returns
`[b, a]` — document `a`, whose id appears first in the input, comes last. -/
theorem claim4_counterexample :
    (get_documents_by_ids c4state ["a", "b", "a"]).map (fun d => d.metadata.id)
        = ["b", "a"] ∧
    ¬ ((get_documents_by_ids c4state ["a", "b", "a"]).map
          (fun d => d.metadata.id)).Pairwise
        (fun x y => List.indexOf x ["a", "b", "a"] ≤ List.indexOf y ["a", "b", "a"]) := by
  constructor
  · rfl
  · intro h
    rw [show (get_documents_by_ids c4state ["a", "b", "a"]).map
        (fun d => d.metadata.id) = ["b", "a"] from rfl] at h
    have hrel := List.rel_of_pairwise_cons h (List.mem_singleton.2 rfl)
    revert hrel
    decide

/-- Witness for `claim4_amended`: the spec's own example `["c","a","b"]` on a
store holding `a`, `b`, `c`. -/
theorem claim4_witness :
    (["c", "a", "b"] : List String).Nodup ∧
    ((activeRows c4state3).map (fun r => r.id)).Nodup ∧
    get_documents_by_ids c4state3 ["c", "a", "b"]
      = ((["c", "a", "b"] : List String).filterMap
          (fun i => (activeRows c4state3).find? (fun r => r.id == i))).map
          _parse_embedding_store_record :=
  ⟨by decide, by decide, claim4_amended c4state3 ["c", "a", "b"] (by decide) (by decide)⟩

end LangroidPg
